import Mathlib

/-!
Verification of the quiet-shell core: a shallow embedding of the output
filtering engine (paragraph parsing, regex inclusion, tail extraction,
deduplication), the config loader/validator, the template manager cache,
the command executor and the server-side suppression policy, together with
theorems checking the specification's statements against these definitions.

JavaScript strings are modelled as `List Char`; `String.prototype.trim`,
`split('\n')` and the `'\n'`-separated array join are given explicit
executable models.  Regex compilation and matching are abstracted as
parameters (`String → Bool` for "does this pattern compile", and
`Line → Bool` for the compiled pattern's `test` on one line), since the
claims under consideration quantify over templates whose regex compiles.
JavaScript numbers appearing in configuration data are modelled as `Rat`
(the config values of interest are non-negative decimals; floats whose
behaviour the claims exercise are exactly representable).
-/

namespace QuietShell

/-- One line of text: a JavaScript string modelled as a list of characters. -/
abbrev Line := List Char

/-- A paragraph: an array of lines, as produced by `parseParagraphs`. -/
abbrev Paragraph := List Line

/-- Convert a Lean string literal into the `List Char` text model. -/
def txt (s : String) : Line := s.toList

/-- Whitespace characters for `String.prototype.trim` (ASCII fragment:
space, tab, newline, carriage return, vertical tab, form feed). -/
def isWS (c : Char) : Bool :=
  c = ' ' || c = '\t' || c = '\n' || c = '\r' || c = '\x0b' || c = '\x0c'

/-- Model of `s.trim()`: drop whitespace from both ends. -/
def trim (s : Line) : Line :=
  ((s.dropWhile isWS).reverse.dropWhile isWS).reverse

/-- Transcribes the blank-line test `line.trim().length === 0`. -/
def isBlankLine (line : Line) : Bool :=
  (trim line).length == 0

/-- Model of `s.split('\n')` (JavaScript semantics: `"".split('\n') = [""]`,
a trailing newline yields a trailing empty segment). -/
def splitOnNl : Line → List Line
  | [] => [[]]
  | c :: rest =>
    if c = '\n' then [] :: splitOnNl rest
    else
      match splitOnNl rest with
      | [] => [[c]]
      | l :: ls => (c :: l) :: ls

/-- Model of joining an array of lines with `'\n'` separators. -/
def joinNl : List Line → Line
  | [] => []
  | [l] => l
  | l :: ls => l ++ '\n' :: joinNl ls

/-- Loop body of `parseParagraphs` (paragraph-parser.ts lines 20-33): state is
`(paragraphs, currentParagraph)`; a blank line flushes a non-empty current
paragraph, a non-blank line is appended verbatim to the current paragraph. -/
def parStep (st : List Paragraph × Paragraph) (line : Line) : List Paragraph × Paragraph :=
  if isBlankLine line then
    if 0 < st.2.length then (st.1 ++ [st.2], []) else st
  else
    (st.1, st.2 ++ [line])

/-- Embedding of `parseParagraphs` (paragraph-parser.ts): early return `[]`
for empty/blank input, then split into lines, run the accumulation loop and
flush the last paragraph if non-empty. -/
def parseParagraphs (output : Line) : List Paragraph :=
  if (trim output).length = 0 then []
  else
    let lines := splitOnNl output
    let final := lines.foldl parStep ([], [])
    if 0 < final.2.length then final.1 ++ [final.2] else final.1

/-- Specification-side description of paragraphs (spec 4.1): the ordered
maximal runs of consecutive non-blank lines, lines kept verbatim. -/
def specRuns : List Line → List Paragraph
  | [] => []
  | line :: rest =>
    if isBlankLine line then specRuns rest
    else
      (line :: rest.takeWhile (fun l => !isBlankLine l))
        :: specRuns (rest.dropWhile (fun l => !isBlankLine l))
termination_by l => l.length
decreasing_by
  · simp only [List.length_cons]; omega
  · simp only [List.length_cons]
    exact Nat.lt_succ_of_le (List.Sublist.length_le (List.dropWhile_sublist _))

/-- Recursive rendering of `parseParagraphs`' loop, used to bridge the
`foldl` form with `specRuns`. -/
def runsFrom (cur : Paragraph) : List Line → List Paragraph
  | [] => if 0 < cur.length then [cur] else []
  | line :: rest =>
    if isBlankLine line then
      (if 0 < cur.length then [cur] else []) ++ runsFrom [] rest
    else
      runsFrom (cur ++ [line]) rest

/-- Deduplication loop of `filterOutput` (output-filter.ts lines 54-72):
`seen` plays the role of the `Set<string>`; a line already seen is skipped,
otherwise it is recorded and kept. -/
def dedupAux (seen : List Line) : List Line → List Line
  | [] => []
  | l :: rest =>
    if l ∈ seen then dedupAux seen rest
    else l :: dedupAux (l :: seen) rest

/-- Specification-side formulation of first-occurrence deduplication
(spec 4.2 "Combine"): fold left, keeping a line only when it has not
appeared before, preserving the order of first occurrences. -/
def firstOccurrences (ls : List Line) : List Line :=
  ls.foldl (fun acc l => if l ∈ acc then acc else acc ++ [l]) []

/-- Specification-side "last `n` elements" (take all when `n` exceeds the
length). -/
def lastN (l : List α) (n : Nat) : List α := l.drop (l.length - n)

/-- Truncation of a non-negative JavaScript number to a natural number,
as performed by `ToIntegerOrInfinity` inside `Array.prototype.slice`. -/
def ratTruncNat (q : Rat) : Nat := q.num.toNat / q.den

/-- Model of `arr.slice(-q)` for a positive number `q`: the index argument
`-q` is truncated toward zero; if that yields `0` the whole array is
returned, otherwise the last `min(⌊q⌋, length)` elements. -/
def jsSliceFromNeg (l : List α) (q : Rat) : List α :=
  let k := ratTruncNat q
  if k = 0 then l else l.drop (l.length - k)

/-- The `Template` data entity.  `tail_paragraphs` is a JavaScript number
(`Rat` here); `suppress_output_on_success` models the optional property the
server consults (`none` = property absent on the object). -/
structure Template where
  description : String
  include_regex : String
  tail_paragraphs : Rat
  suppress_output_on_success : Option Bool
deriving DecidableEq

/-- Embedding of `filterOutput` (output-filter.ts).  `compiledRegex` stands
for the result of `new RegExp(template.include_regex)`: `none` when
compilation throws (the function then returns the raw output), `some test`
for the compiled pattern's per-line `test`.  Otherwise: early return for
blank input or no paragraphs, pass 1 collects matching lines paragraph by
paragraph, pass 2 takes the last `max(0, tail_paragraphs)` paragraphs via
`slice`, then both are concatenated, deduplicated and joined with `'\n'`. -/
def filterOutput (compiledRegex : Option (Line → Bool)) (rawOutput : Line)
    (template : Template) : Line :=
  if (trim rawOutput).length = 0 then []
  else
    let paragraphs := parseParagraphs rawOutput
    if paragraphs.length = 0 then []
    else
      match compiledRegex with
      | none => rawOutput
      | some test =>
        let matchedLines := (paragraphs.map (fun p => p.filter test)).flatten
        let tailCount : Rat := max 0 template.tail_paragraphs
        let tailLines :=
          if 0 < tailCount then (jsSliceFromNeg paragraphs tailCount).flatten else []
        joinNl (dedupAux [] (matchedLines ++ tailLines))

/-- JavaScript/YAML values as seen by the config loader after parsing. -/
inductive JValue where
  | jnull
  | jbool (b : Bool)
  | jnum (q : Rat)
  | jstr (s : String)
  | jarr (elems : List JValue)
  | jobj (fields : List (String × JValue))

/-- Property lookup `v[key]`: `some` for an own field of an object,
`none` (undefined) otherwise. -/
def getField (v : JValue) (key : String) : Option JValue :=
  match v with
  | .jobj fields => (fields.find? (fun f => f.1 == key)).map (fun f => f.2)
  | _ => none

/-- The check `template && typeof template === "object"`: objects and arrays
pass; `null` has object type but is falsy and fails. -/
def isJsObject : JValue → Bool
  | .jobj _ => true
  | .jarr _ => true
  | _ => false

/-- `Object.entries(v)` for an object or an array. -/
def jsEntries : JValue → List (String × JValue)
  | .jobj fields => fields
  | .jarr xs => xs.enum.map (fun p => (toString p.1, p.2))
  | _ => []

/-- The check `typeof v === "string"` on a property access result: `some`
exactly when the property is present and a string. -/
def jsTypeofString : Option JValue → Option String
  | some (.jstr s) => some s
  | _ => none

/-- The check `typeof v === "number"` on a property access result: `some`
exactly when the property is present and a number. -/
def jsTypeofNumber : Option JValue → Option Rat
  | some (.jnum q) => some q
  | _ => none

/-- Embedding of `validateTemplate` (loader.ts lines 68-101).
`regexCompiles r` stands for "`new RegExp(r)` does not throw".  Note the
returned object literal carries only `description`, `include_regex` and
`tail_paragraphs`; any `suppress_output_on_success` field of the input is
not copied, hence `none` in the result. -/
def validateTemplate (regexCompiles : String → Bool) (template : JValue) :
    Except String Template :=
  if !isJsObject template then .error "Template must be an object"
  else
    match jsTypeofString (getField template "description") with
    | none => .error "Template must have description string"
    | some description =>
      match jsTypeofString (getField template "include_regex") with
      | none => .error "Template must have include_regex string"
      | some include_regex =>
        if !regexCompiles include_regex then
          .error ("Invalid regex pattern: " ++ include_regex)
        else
          match jsTypeofNumber (getField template "tail_paragraphs") with
          | none => .error "Template must have tail_paragraphs as non-negative number"
          | some q =>
            if q < 0 then
              .error "Template must have tail_paragraphs as non-negative number"
            else
              .ok { description := description, include_regex := include_regex,
                    tail_paragraphs := q, suppress_output_on_success := none }

/-- Embedding of `loadConfig` (loader.ts lines 26-54) after the file has been
read and YAML-parsed into `parsed` (file I/O and YAML parsing abstracted):
fatal structural errors for a non-object document or a missing/non-object
`templates` key; each entry validated independently, invalid entries skipped. -/
def loadConfig (regexCompiles : String → Bool) (parsed : JValue) :
    Except String (List (String × Template)) :=
  if !isJsObject parsed then .error "Config file must contain an object"
  else
    match getField parsed "templates" with
    | some tv =>
      if isJsObject tv then
        .ok ((jsEntries tv).foldl
          (fun acc nt =>
            match validateTemplate regexCompiles nt.2 with
            | .ok t => acc ++ [(nt.1, t)]
            | .error _ => acc) [])
      else .error "Config must have templates object"
    | none => .error "Config must have templates object"

/-- Result of one command execution. -/
structure ExecutionResult where
  exitCode : Int
  output : Line
deriving DecidableEq

/-- Events emitted by the spawned child process, in order: data chunks on
either stream, a `close` event carrying `code : Option Int` (`null` for a
signal), or an `error` event carrying the diagnostic message. -/
inductive ChildEvent where
  | data (chunk : Line)
  | close (code : Option Int)
  | err (message : Line)

/-- Event loop of `executeCommand` (command-executor.ts): accumulate chunks;
the promise resolves at the first `close` (exit code `code ?? 0`, output =
joined chunks) or `error` (synthetic result, exit code 1).  `none` means the
promise never resolves (no terminal event). -/
def runChild (chunks : List Line) : List ChildEvent → Option ExecutionResult
  | [] => none
  | .data c :: rest => runChild (chunks ++ [c]) rest
  | .close code :: _ =>
    some { exitCode := code.getD 0, output := chunks.flatten }
  | .err message :: _ =>
    some { exitCode := 1, output := txt "Error executing command: " ++ message }

/-- Embedding of `executeCommand`: run the event loop from an empty output
buffer.  The promise executor never calls `reject`; every outcome is an
ordinary resolution, which the total function type reflects. -/
def executeCommand (events : List ChildEvent) : Option ExecutionResult :=
  runChild [] events

/-- A `Record<string, Template>` with insertion order, as JavaScript objects
preserve it. -/
abbrev TSet := List (String × Template)

/-- JavaScript object assignment `m[name] = t`: overwrite in place if the
key exists, else append. -/
def setKey (m : TSet) (name : String) (t : Template) : TSet :=
  if m.any (fun p => p.1 == name) then
    m.map (fun p => if p.1 == name then (name, t) else p)
  else m ++ [(name, t)]

/-- Embedding of `TemplateManager.loadTemplates` (manager.ts lines 79-121):
start from the built-ins; if discovery found a config path, load it and merge
(custom overrides built-in by name); any load error is caught and the
built-ins alone are returned.  Discovery and the loader are abstracted as
the `configPath` and `loadCfg` parameters (they perform file I/O). -/
def loadTemplates (builtin : TSet) (configPath : Option String)
    (loadCfg : String → Except String TSet) : TSet :=
  match configPath with
  | some p =>
    match loadCfg p with
    | .ok custom => custom.foldl (fun acc nt => setKey acc nt.1 nt.2) builtin
    | .error _ => builtin
  | none => builtin

/-- Mutable state of one `TemplateManager`: the cached set and its load
timestamp. -/
structure ManagerState where
  cache : Option TSet
  cacheTime : Int
deriving DecidableEq

/-- A fresh manager: no cache, `cacheTime = 0`. -/
def initialManagerState : ManagerState := { cache := none, cacheTime := 0 }

/-- Result of one cache-consulting call: the returned set, the successor
state, and whether a discovery/load cycle ran. -/
structure CacheStep where
  templates : TSet
  state : ManagerState
  didLoad : Bool
deriving DecidableEq

/-- Embedding of `loadTemplatesWithCache` (manager.ts lines 56-74): if a
cache exists and `now - cacheTime < cacheTTL`, return it with no load;
otherwise run one load and replace the cache wholesale with timestamp `now`.
`loadF` abstracts `loadTemplates` (which reads the filesystem); `now`
abstracts `Date.now()`. -/
def loadTemplatesWithCache (cacheTTL : Int) (loadF : Unit → TSet) (now : Int)
    (st : ManagerState) : CacheStep :=
  match st.cache with
  | some c =>
    if now - st.cacheTime < cacheTTL then
      { templates := c, state := st, didLoad := false }
    else
      let t := loadF ()
      { templates := t, state := { cache := some t, cacheTime := now }, didLoad := true }
  | none =>
    let t := loadF ()
    { templates := t, state := { cache := some t, cacheTime := now }, didLoad := true }

/-- `TemplateManager.getAvailableTemplates`: delegates to the cache layer. -/
def getAvailableTemplates (cacheTTL : Int) (loadF : Unit → TSet) (now : Int)
    (st : ManagerState) : CacheStep :=
  loadTemplatesWithCache cacheTTL loadF now st

/-- `TemplateManager.getTemplate`: consult the cache layer, then look the
name up in the returned set. -/
def getTemplate (cacheTTL : Int) (loadF : Unit → TSet) (now : Int)
    (st : ManagerState) (name : String) : Option Template × ManagerState × Bool :=
  let s := loadTemplatesWithCache cacheTTL loadF now st
  ((s.templates.find? (fun p => p.1 == name)).map (fun p => p.2), s.state, s.didLoad)

/-- The structured response of `execute_command` (server.ts lines 224-242). -/
structure ToolResponse where
  result : String
  exit_code : Int
  output : Line
  template_used : Option String
deriving DecidableEq

/-- The fixed sentinel emitted when a successful command's output is
suppressed (server.ts lines 198-204). -/
def successSentinel : Line :=
  txt "Command completed successfully (output suppressed - exit code 0)"

/-- Embedding of the `execute_command` handler's response computation
(server.ts lines 146-242) after the command has run, on the non-error path.
`suppress_output_on_success` is the caller's optional flag (defaulted to
`true`); `templateArg` is `none` when no template was requested, otherwise
the resolved template's name, object, and compiled regex (template
resolution and the output-file side channel are outside this function).
The initial suppression decision uses the caller flag; when a template is
given the output is filtered and, if the template object defines
`suppress_output_on_success`, that value replaces the caller flag in the
decision.  Suppression replaces the output with the sentinel; the exit code
is returned as-is. -/
def executeResponse (suppress_output_on_success : Option Bool)
    (templateArg : Option (String × Template × Option (Line → Bool)))
    (res : ExecutionResult) : ToolResponse :=
  let suppressOutputOnSuccess :=
    match suppress_output_on_success with
    | some b => b
    | none => true
  let st : Line × Option String × Bool :=
    match templateArg with
    | none => (res.output, none, suppressOutputOnSuccess && res.exitCode == 0)
    | some (name, templateObj, compiled) =>
      let filtered := filterOutput compiled res.output templateObj
      let sup :=
        match templateObj.suppress_output_on_success with
        | some b => b && res.exitCode == 0
        | none => suppressOutputOnSuccess && res.exitCode == 0
      (filtered, some name, sup)
  { result := if res.exitCode == 0 then "success" else "failure"
    exit_code := res.exitCode
    output := if st.2.2 then successSentinel else st.1
    template_used := st.2.1 }

/-- Modelled from the spec: the effective suppression of section 4.5 — the
selected template's override when it defines one, otherwise the caller's
flag. -/
def effectiveSuppression (templateObj : Option Template) (suppressFlag : Bool) : Bool :=
  match templateObj with
  | some t =>
    match t.suppress_output_on_success with
    | some b => b
    | none => suppressFlag
  | none => suppressFlag

/-- The non-integer JavaScript number 1.5, given in normalised form (the
kernel cannot evaluate `Nat.gcd`, so `3 / 2` is built by constructor). -/
def threeHalves : Rat := ⟨3, 2, by norm_num, by norm_num⟩

/-! ### Text-layer lemmas -/

theorem dropWhile_nil_iff {α : Type} {p : α → Bool} :
    ∀ l : List α, l.dropWhile p = [] ↔ ∀ a ∈ l, p a := by
  intro l
  induction l with
  | nil => simp
  | cons a l ih =>
    by_cases h : p a
    · simp [List.dropWhile_cons, h, ih]
    · simp [List.dropWhile_cons, h]

theorem all_dropWhile_iff {α : Type} {p : α → Bool} :
    ∀ l : List α, (∀ a ∈ l.dropWhile p, p a) ↔ ∀ a ∈ l, p a := by
  intro l
  induction l with
  | nil => simp
  | cons a l ih =>
    by_cases h : p a
    · rw [List.dropWhile_cons, if_pos h]
      constructor
      · intro hall x hx
        rcases List.mem_cons.mp hx with rfl | hx
        · exact h
        · exact ih.mp hall x hx
      · intro hall
        exact ih.mpr fun x hx => hall x (List.mem_cons_of_mem _ hx)
    · rw [List.dropWhile_cons, if_neg h]

theorem trim_eq_nil_iff (s : Line) : trim s = [] ↔ ∀ c ∈ s, isWS c := by
  unfold trim
  rw [List.reverse_eq_nil_iff, dropWhile_nil_iff]
  constructor
  · intro h c hc
    have h2 : ∀ a ∈ s.dropWhile isWS, isWS a :=
      fun a ha => h a (List.mem_reverse.mpr ha)
    exact (all_dropWhile_iff s).mp h2 c hc
  · intro h a ha
    exact h a ((List.dropWhile_sublist isWS).subset (List.mem_reverse.mp ha))

theorem splitOnNl_ne_nil : ∀ s : Line, splitOnNl s ≠ [] := by
  intro s
  induction s with
  | nil => simp [splitOnNl]
  | cons c rest ih =>
    simp only [splitOnNl]
    by_cases h : c = '\n'
    · simp [h]
    · simp only [h, if_false]
      cases hs : splitOnNl rest <;> simp

theorem mem_of_mem_splitOnNl :
    ∀ (s line : Line), line ∈ splitOnNl s → ∀ c ∈ line, c ∈ s := by
  intro s
  induction s with
  | nil =>
    intro line hl c hc
    simp only [splitOnNl, List.mem_singleton] at hl
    subst hl
    simp at hc
  | cons a rest ih =>
    intro line hl c hc
    simp only [splitOnNl] at hl
    by_cases h : a = '\n'
    · rw [if_pos h] at hl
      rcases List.mem_cons.mp hl with rfl | hl
      · simp at hc
      · exact List.mem_cons_of_mem _ (ih line hl c hc)
    · rw [if_neg h] at hl
      cases hs : splitOnNl rest with
      | nil => exact absurd hs (splitOnNl_ne_nil rest)
      | cons l ls =>
        rw [hs] at hl
        have hlmem : l ∈ splitOnNl rest := by rw [hs]; exact List.mem_cons_self l ls
        rcases List.mem_cons.mp hl with rfl | hl
        · rcases List.mem_cons.mp hc with rfl | hc2
          · exact List.mem_cons_self _ _
          · exact List.mem_cons_of_mem _ (ih l hlmem c hc2)
        · have : line ∈ splitOnNl rest := by rw [hs]; exact List.mem_cons_of_mem l hl
          exact List.mem_cons_of_mem _ (ih line this c hc)

/-! ### Paragraph-parser lemmas -/

theorem foldl_parStep_runsFrom :
    ∀ (lines : List Line) (paras : List Paragraph) (cur : Paragraph),
      (if 0 < (lines.foldl parStep (paras, cur)).2.length
       then (lines.foldl parStep (paras, cur)).1 ++ [(lines.foldl parStep (paras, cur)).2]
       else (lines.foldl parStep (paras, cur)).1)
        = paras ++ runsFrom cur lines := by
  intro lines
  induction lines with
  | nil =>
    intro paras cur
    simp only [List.foldl_nil, runsFrom]
    by_cases h : 0 < cur.length <;> simp [h]
  | cons line rest ih =>
    intro paras cur
    simp only [List.foldl_cons, runsFrom, parStep]
    by_cases hb : isBlankLine line
    · simp only [hb, if_true]
      by_cases hc : 0 < cur.length
      · rw [if_pos hc, if_pos hc, ih, List.append_assoc]
      · have hcur : cur = [] := by
          cases cur with
          | nil => rfl
          | cons x xs => exact absurd (by simp) hc
        subst hcur
        rw [if_neg hc, if_neg hc, ih, List.nil_append]
    · simp only [hb, if_false]
      exact ih paras (cur ++ [line])

theorem specRuns_cons (line : Line) (rest : List Line) :
    specRuns (line :: rest)
      = if isBlankLine line then specRuns rest
        else (line :: rest.takeWhile (fun l => !isBlankLine l))
            :: specRuns (rest.dropWhile (fun l => !isBlankLine l)) := by
  rw [specRuns.eq_def]

theorem runsFrom_specRuns :
    ∀ lines : List Line,
      runsFrom [] lines = specRuns lines ∧
      ∀ cur : Paragraph, 0 < cur.length →
        runsFrom cur lines
          = (cur ++ lines.takeWhile (fun l => !isBlankLine l))
              :: specRuns (lines.dropWhile (fun l => !isBlankLine l)) := by
  intro lines
  induction lines with
  | nil =>
    refine ⟨by simp [runsFrom, specRuns], ?_⟩
    intro cur hc
    simp [runsFrom, specRuns, hc]
  | cons line rest ih =>
    obtain ⟨ih1, ih2⟩ := ih
    constructor
    · by_cases hb : isBlankLine line
      · rw [runsFrom, if_pos hb, specRuns_cons, if_pos hb, ih1]
        simp
      · rw [runsFrom, if_neg hb, List.nil_append, ih2 [line] (by simp), specRuns_cons,
          if_neg hb]
        simp
    · intro cur hc
      by_cases hb : isBlankLine line
      · rw [runsFrom, if_pos hb, if_pos hc, ih1,
          List.takeWhile_cons_of_neg (by simp [hb]),
          List.dropWhile_cons_of_neg (by simp [hb]),
          specRuns_cons, if_pos hb, List.append_nil]
        rfl
      · rw [runsFrom, if_neg hb, ih2 (cur ++ [line]) (by simp), List.takeWhile_cons,
          List.dropWhile_cons]
        simp [hb]

theorem specRuns_of_all_blank :
    ∀ lines : List Line, (∀ l ∈ lines, isBlankLine l) → specRuns lines = [] := by
  intro lines
  induction lines with
  | nil => intro _; simp [specRuns]
  | cons line rest ih =>
    intro h
    rw [specRuns, if_pos (h line (List.mem_cons_self _ _))]
    exact ih fun l hl => h l (List.mem_cons_of_mem _ hl)

theorem parseParagraphs_eq_runsFrom (output : Line)
    (h : ¬(trim output).length = 0) :
    parseParagraphs output = runsFrom [] (splitOnNl output) := by
  simp only [parseParagraphs, h, if_false]
  rw [foldl_parStep_runsFrom (splitOnNl output) [] [], List.nil_append]

/-- C4: for every input, `parseParagraphs` returns the ordered maximal runs
of non-blank lines of the `'\n'`-split input (a line is blank iff empty
after trimming), lines preserved verbatim — this is `specRuns`, whose runs
are built with `takeWhile`/`dropWhile` on the original untrimmed lines;
and the two blank inputs of spec section 8 yield the empty list. -/
theorem parseParagraphs_maximal_runs :
    (∀ output : Line, parseParagraphs output = specRuns (splitOnNl output)) ∧
    parseParagraphs (txt "") = [] ∧ parseParagraphs (txt "   \n  ") = [] := by
  refine ⟨?_, by decide, by decide⟩
  intro output
  by_cases h : (trim output).length = 0
  · simp only [parseParagraphs, h, if_true]
    symm
    apply specRuns_of_all_blank
    intro l hl
    have hall : ∀ c ∈ output, isWS c :=
      (trim_eq_nil_iff output).mp (List.length_eq_zero.mp h)
    have : trim l = [] :=
      (trim_eq_nil_iff l).mpr fun c hc => hall c (mem_of_mem_splitOnNl output l hl c hc)
    simp [isBlankLine, this]
  · rw [parseParagraphs_eq_runsFrom output h, (runsFrom_specRuns (splitOnNl output)).1]

/-! ### Filter lemmas -/

theorem filter_map_flatten (test : Line → Bool) :
    ∀ ps : List Paragraph,
      (ps.map (fun p => p.filter test)).flatten = ps.flatten.filter test := by
  intro ps
  induction ps with
  | nil => simp
  | cons p ps ih =>
    rw [List.map_cons, List.flatten_cons, List.flatten_cons, List.filter_append, ih]

theorem foldl_dedup_general :
    ∀ (ls seen acc : List Line),
      (∀ x : Line, x ∈ seen ↔ x ∈ acc) →
      ls.foldl (fun acc l => if l ∈ acc then acc else acc ++ [l]) acc
        = acc ++ dedupAux seen ls := by
  intro ls
  induction ls with
  | nil => intro seen acc _; simp [dedupAux]
  | cons l rest ih =>
    intro seen acc h
    simp only [List.foldl_cons, dedupAux]
    by_cases hl : l ∈ seen
    · rw [if_pos ((h l).mp hl), if_pos hl, ih seen acc h]
    · have hmem : ∀ x : Line, x ∈ l :: seen ↔ x ∈ acc ++ [l] := by
        intro x
        constructor
        · intro hx
          rcases List.mem_cons.mp hx with rfl | hx
          · exact List.mem_append.mpr (Or.inr (List.mem_singleton_self _))
          · exact List.mem_append.mpr (Or.inl ((h x).mp hx))
        · intro hx
          rcases List.mem_append.mp hx with hx | hx
          · exact List.mem_cons_of_mem _ ((h x).mpr hx)
          · rw [List.mem_singleton] at hx
            subst hx
            exact List.mem_cons_self _ _
      rw [if_neg (fun c => hl ((h l).mpr c)), if_neg hl, ih (l :: seen) (acc ++ [l]) hmem]
      simp

theorem firstOccurrences_eq_dedup (ls : List Line) :
    firstOccurrences ls = dedupAux [] ls := by
  unfold firstOccurrences
  have h := foldl_dedup_general ls [] [] (by simp)
  simpa using h

theorem dedupAux_nodup_mem :
    ∀ (ls seen : List Line),
      (dedupAux seen ls).Nodup ∧ ∀ x ∈ dedupAux seen ls, x ∉ seen ∧ x ∈ ls := by
  intro ls
  induction ls with
  | nil => intro seen; simp [dedupAux]
  | cons l rest ih =>
    intro seen
    simp only [dedupAux]
    by_cases hl : l ∈ seen
    · rw [if_pos hl]
      exact ⟨(ih seen).1, fun x hx =>
        ⟨((ih seen).2 x hx).1, List.mem_cons_of_mem _ ((ih seen).2 x hx).2⟩⟩
    · rw [if_neg hl]
      obtain ⟨hnd, hmem⟩ := ih (l :: seen)
      refine ⟨List.nodup_cons.mpr ⟨fun hc => (hmem l hc).1 (List.mem_cons_self _ _), hnd⟩, ?_⟩
      intro x hx
      rcases List.mem_cons.mp hx with rfl | hx2
      · exact ⟨hl, List.mem_cons_self _ _⟩
      · exact ⟨fun hs => (hmem x hx2).1 (List.mem_cons_of_mem _ hs),
          List.mem_cons_of_mem _ (hmem x hx2).2⟩

theorem parseParagraphs_blank (raw : Line) (h : (trim raw).length = 0) :
    parseParagraphs raw = [] := by
  simp [parseParagraphs, h]

theorem filterOutput_some_eq (test : Line → Bool) (raw : Line) (t : Template) :
    filterOutput (some test) raw t
      = joinNl (dedupAux []
          ((parseParagraphs raw).flatten.filter test
            ++ (if 0 < max 0 t.tail_paragraphs
                then (jsSliceFromNeg (parseParagraphs raw) (max 0 t.tail_paragraphs)).flatten
                else []))) := by
  by_cases h : (trim raw).length = 0
  · rw [parseParagraphs_blank raw h]
    simp [filterOutput, h, jsSliceFromNeg, dedupAux, joinNl]
  · by_cases h2 : (parseParagraphs raw).length = 0
    · rw [List.length_eq_zero.mp h2]
      simp [filterOutput, h, List.length_eq_zero.mp h2, jsSliceFromNeg, dedupAux, joinNl]
    · simp only [filterOutput]
      rw [if_neg h, if_neg h2, filter_map_flatten]

theorem ratTruncNat_natCast (N : Nat) : ratTruncNat ((N : Nat) : Rat) = N := by
  unfold ratTruncNat
  rw [Rat.num_natCast, Rat.den_natCast]
  simp

theorem jsSliceFromNeg_natCast {α : Type} (l : List α) (N : Nat) (hN : 0 < N) :
    jsSliceFromNeg l ((N : Nat) : Rat) = lastN l N := by
  unfold jsSliceFromNeg lastN
  rw [ratTruncNat_natCast, if_neg (by omega)]

theorem jsSliceFromNeg_subset {α : Type} (l : List α) (q : Rat) :
    jsSliceFromNeg l q ⊆ l := by
  intro x hx
  simp only [jsSliceFromNeg] at hx
  by_cases h : ratTruncNat q = 0
  · rwa [if_pos h] at hx
  · rw [if_neg h] at hx
    exact List.mem_of_mem_drop hx

theorem filterOutput_tail_nat (test : Line → Bool) (raw : Line) (t : Template)
    (N : Nat) (hN : t.tail_paragraphs = (N : Rat)) :
    filterOutput (some test) raw t
      = joinNl (firstOccurrences
          ((parseParagraphs raw).flatten.filter test
            ++ (lastN (parseParagraphs raw) N).flatten)) := by
  rw [filterOutput_some_eq, firstOccurrences_eq_dedup, hN,
    max_eq_right (Nat.cast_nonneg N)]
  cases Nat.eq_zero_or_pos N with
  | inl h0 =>
    subst h0
    rw [if_neg (by simp)]
    simp [lastN]
  | inr hpos =>
    rw [if_pos (by exact_mod_cast hpos), jsSliceFromNeg_natCast _ N hpos]

theorem runsFrom_mem :
    ∀ (lines : List Line) (cur : Paragraph),
      (∀ l ∈ cur, isBlankLine l = false) →
      ∀ p ∈ runsFrom cur lines, ∀ l ∈ p,
        (l ∈ cur ∨ l ∈ lines) ∧ isBlankLine l = false := by
  intro lines
  induction lines with
  | nil =>
    intro cur hcur p hp l hl
    rw [runsFrom] at hp
    by_cases hc : 0 < cur.length
    · rw [if_pos hc, List.mem_singleton] at hp
      subst hp
      exact ⟨Or.inl hl, hcur l hl⟩
    · rw [if_neg hc] at hp
      simp at hp
  | cons line rest ih =>
    intro cur hcur p hp l hl
    rw [runsFrom] at hp
    by_cases hb : isBlankLine line
    · rw [if_pos hb] at hp
      rcases List.mem_append.mp hp with hp | hp
      · by_cases hc : 0 < cur.length
        · rw [if_pos hc, List.mem_singleton] at hp
          subst hp
          exact ⟨Or.inl hl, hcur l hl⟩
        · rw [if_neg hc] at hp
          simp at hp
      · rcases ih [] (by simp) p hp l hl with ⟨hm, hbl⟩
        rcases hm with hm | hm
        · simp at hm
        · exact ⟨Or.inr (List.mem_cons_of_mem _ hm), hbl⟩
    · rw [if_neg hb] at hp
      have hcur2 : ∀ x ∈ cur ++ [line], isBlankLine x = false := by
        intro x hx
        rcases List.mem_append.mp hx with hx | hx
        · exact hcur x hx
        · rw [List.mem_singleton] at hx
          subst hx
          simp [hb]
      rcases ih (cur ++ [line]) hcur2 p hp l hl with ⟨hm, hbl⟩
      refine ⟨?_, hbl⟩
      rcases hm with hm | hm
      · rcases List.mem_append.mp hm with hm | hm
        · exact Or.inl hm
        · rw [List.mem_singleton] at hm
          subst hm
          exact Or.inr (List.mem_cons_self _ _)
      · exact Or.inr (List.mem_cons_of_mem _ hm)

theorem parseParagraphs_line_mem (raw : Line) :
    ∀ p ∈ parseParagraphs raw, ∀ l ∈ p,
      l ∈ splitOnNl raw ∧ isBlankLine l = false := by
  intro p hp l hl
  by_cases h : (trim raw).length = 0
  · rw [parseParagraphs_blank raw h] at hp
    simp at hp
  · rw [parseParagraphs_eq_runsFrom raw h] at hp
    rcases runsFrom_mem (splitOnNl raw) [] (by simp) p hp l hl with ⟨hm, hb⟩
    rcases hm with hm | hm
    · simp at hm
    · exact ⟨hm, hb⟩

/-- C2: when the regex compiles, `filterOutput` returns the regex-matched
lines (in original order) followed by the tail-paragraph lines, deduplicated
by exact line text keeping only first occurrences in order
(`firstOccurrences` is the spec-side left fold); and with
`tail_paragraphs = 0` exactly the distinct matching lines, in
first-occurrence order. -/
theorem filterOutput_matched_tail_firstOccurrence
    (test : Line → Bool) (raw : Line) (t : Template) (N : Nat)
    (hN : t.tail_paragraphs = (N : Rat)) :
    filterOutput (some test) raw t
      = joinNl (firstOccurrences
          ((parseParagraphs raw).flatten.filter test
            ++ (lastN (parseParagraphs raw) N).flatten)) ∧
    (N = 0 → filterOutput (some test) raw t
      = joinNl (firstOccurrences ((parseParagraphs raw).flatten.filter test))) := by
  refine ⟨filterOutput_tail_nat test raw t N hN, ?_⟩
  rintro rfl
  have h := filterOutput_tail_nat test raw t 0 hN
  simpa [lastN, List.drop_length] using h

theorem filterOutput_matched_tail_firstOccurrence_witness :
    filterOutput (some (fun l => decide ('E' ∈ l)))
        (txt "ERROR: Failed\nINFO: Continue\n\nERROR: Failed")
        { description := "t", include_regex := "ERROR",
          tail_paragraphs := ((1 : Nat) : Rat), suppress_output_on_success := none }
      = joinNl (firstOccurrences
          ((parseParagraphs (txt "ERROR: Failed\nINFO: Continue\n\nERROR: Failed")).flatten.filter
              (fun l => decide ('E' ∈ l))
            ++ (lastN (parseParagraphs
                  (txt "ERROR: Failed\nINFO: Continue\n\nERROR: Failed")) 1).flatten)) :=
  (filterOutput_matched_tail_firstOccurrence (fun l => decide ('E' ∈ l))
    (txt "ERROR: Failed\nINFO: Continue\n\nERROR: Failed")
    { description := "t", include_regex := "ERROR",
      tail_paragraphs := ((1 : Nat) : Rat), suppress_output_on_success := none }
    1 rfl).1

/-- C3: when the regex matches no line of the output, `filterOutput` with
`tail_paragraphs = N` yields the flattened lines of the last
`min(N, paragraph count)` paragraphs (that is what `lastN` computes),
deduplicated, in order; and when `N` is at least the paragraph count, all
paragraph lines of the output, deduplicated, in order. -/
theorem filterOutput_no_match_tail
    (test : Line → Bool) (raw : Line) (t : Template) (N : Nat)
    (hN : t.tail_paragraphs = (N : Rat))
    (hmatch : ∀ l ∈ splitOnNl raw, test l = false) :
    filterOutput (some test) raw t
      = joinNl (firstOccurrences (lastN (parseParagraphs raw) N).flatten) ∧
    ((parseParagraphs raw).length ≤ N →
      filterOutput (some test) raw t
        = joinNl (firstOccurrences (parseParagraphs raw).flatten)) := by
  have hfilter : (parseParagraphs raw).flatten.filter test = [] := by
    rw [List.filter_eq_nil_iff]
    intro l hl
    obtain ⟨p, hp, hlp⟩ := List.mem_flatten.mp hl
    have hmem := (parseParagraphs_line_mem raw p hp l hlp).1
    simp [hmatch l hmem]
  have h := filterOutput_tail_nat test raw t N hN
  rw [hfilter, List.nil_append] at h
  refine ⟨h, ?_⟩
  intro hle
  rwa [lastN, Nat.sub_eq_zero_of_le hle, List.drop_zero] at h

theorem filterOutput_no_match_tail_witness :
    filterOutput (some (fun _ => false))
        (txt "paragraph 1\n\nparagraph 2\n\nparagraph 3\n\nparagraph 4")
        { description := "t", include_regex := "NOMATCH",
          tail_paragraphs := ((2 : Nat) : Rat), suppress_output_on_success := none }
      = joinNl (firstOccurrences
          (lastN (parseParagraphs
            (txt "paragraph 1\n\nparagraph 2\n\nparagraph 3\n\nparagraph 4")) 2).flatten) :=
  (filterOutput_no_match_tail (fun _ => false)
    (txt "paragraph 1\n\nparagraph 2\n\nparagraph 3\n\nparagraph 4")
    { description := "t", include_regex := "NOMATCH",
      tail_paragraphs := ((2 : Nat) : Rat), suppress_output_on_success := none }
    2 rfl (by simp)).1

/-- C10: the filtered result is the newline-join of a duplicate-free list
each of whose lines is a non-blank line occurring in the raw output — the
filter never invents, alters, or duplicates content. -/
theorem filterOutput_sound_lines (test : Line → Bool) (raw : Line) (t : Template) :
    ∃ L : List Line,
      filterOutput (some test) raw t = joinNl L ∧ L.Nodup ∧
      ∀ l ∈ L, l ∈ splitOnNl raw ∧ isBlankLine l = false := by
  refine ⟨_, filterOutput_some_eq test raw t, (dedupAux_nodup_mem _ []).1, ?_⟩
  intro l hl
  have hmem := ((dedupAux_nodup_mem _ []).2 l hl).2
  rcases List.mem_append.mp hmem with hm | hm
  · obtain ⟨p, hp, hlp⟩ := List.mem_flatten.mp (List.mem_of_mem_filter hm)
    exact parseParagraphs_line_mem raw p hp l hlp
  · have hm2 : l ∈ (jsSliceFromNeg (parseParagraphs raw)
        (max 0 t.tail_paragraphs)).flatten := by
      by_cases hc : 0 < max 0 t.tail_paragraphs
      · rwa [if_pos hc] at hm
      · rw [if_neg hc] at hm
        simp at hm
    obtain ⟨p, hp, hlp⟩ := List.mem_flatten.mp hm2
    exact parseParagraphs_line_mem raw p (jsSliceFromNeg_subset _ _ hp) l hlp

/-! ### Config-loader lemmas -/

theorem jsTypeofString_eq_some (x : Option JValue) (s : String) :
    jsTypeofString x = some s ↔ x = some (JValue.jstr s) := by
  cases x with
  | none => simp [jsTypeofString]
  | some v => cases v <;> simp [jsTypeofString]

theorem jsTypeofNumber_eq_some (x : Option JValue) (q : Rat) :
    jsTypeofNumber x = some q ↔ x = some (JValue.jnum q) := by
  cases x with
  | none => simp [jsTypeofNumber]
  | some v => cases v <;> simp [jsTypeofNumber]

theorem validateTemplate_ok_iff (compiles : String → Bool) (j : JValue) :
    (∃ t, validateTemplate compiles j = Except.ok t) ↔
      (isJsObject j = true ∧
       (∃ d, getField j "description" = some (JValue.jstr d)) ∧
       (∃ r, getField j "include_regex" = some (JValue.jstr r) ∧ compiles r = true) ∧
       (∃ q, getField j "tail_paragraphs" = some (JValue.jnum q) ∧ 0 ≤ q)) := by
  unfold validateTemplate
  by_cases ho : isJsObject j
  · rw [if_neg (by simp [ho])]
    cases hd : jsTypeofString (getField j "description") with
    | none =>
      constructor
      · rintro ⟨t, ht⟩
        exact absurd ht (by simp)
      · rintro ⟨-, ⟨d, hd2⟩, -, -⟩
        rw [(jsTypeofString_eq_some _ d).mpr hd2] at hd
        exact absurd hd (by simp)
    | some description =>
      have hdget : getField j "description" = some (JValue.jstr description) :=
        (jsTypeofString_eq_some _ _).mp hd
      cases hr : jsTypeofString (getField j "include_regex") with
      | none =>
        constructor
        · rintro ⟨t, ht⟩
          exact absurd ht (by simp)
        · rintro ⟨-, -, ⟨r, hr2, -⟩, -⟩
          rw [(jsTypeofString_eq_some _ r).mpr hr2] at hr
          exact absurd hr (by simp)
      | some include_regex =>
        have hrget : getField j "include_regex" = some (JValue.jstr include_regex) :=
          (jsTypeofString_eq_some _ _).mp hr
        dsimp only
        by_cases hc : compiles include_regex
        · rw [if_neg (by simp [hc])]
          cases hq : jsTypeofNumber (getField j "tail_paragraphs") with
          | none =>
            constructor
            · rintro ⟨t, ht⟩
              exact absurd ht (by simp)
            · rintro ⟨-, -, -, ⟨q, hq2, -⟩⟩
              rw [(jsTypeofNumber_eq_some _ q).mpr hq2] at hq
              exact absurd hq (by simp)
          | some q =>
            have hqget : getField j "tail_paragraphs" = some (JValue.jnum q) :=
              (jsTypeofNumber_eq_some _ _).mp hq
            dsimp only
            by_cases hq0 : q < 0
            · rw [if_pos hq0]
              constructor
              · rintro ⟨t, ht⟩
                exact absurd ht (by simp)
              · rintro ⟨-, -, -, ⟨q2, hq2, hq20⟩⟩
                rw [hqget] at hq2
                obtain rfl : q = q2 := JValue.jnum.inj (Option.some.inj hq2)
                exact absurd hq0 (not_lt.mpr hq20)
            · rw [if_neg hq0]
              constructor
              · intro _
                exact ⟨ho, ⟨description, hdget⟩, ⟨include_regex, hrget, hc⟩,
                  ⟨q, hqget, le_of_not_lt hq0⟩⟩
              · intro _
                exact ⟨_, rfl⟩
        · rw [if_pos (by simp [hc])]
          constructor
          · rintro ⟨t, ht⟩
            exact absurd ht (by simp)
          · rintro ⟨-, -, ⟨r, hr2, hrc⟩, -⟩
            rw [hrget] at hr2
            obtain rfl : include_regex = r := JValue.jstr.inj (Option.some.inj hr2)
            exact absurd hrc hc
  · rw [if_pos (by simp [ho])]
    constructor
    · rintro ⟨t, ht⟩
      exact absurd ht (by simp)
    · rintro ⟨hobj, -⟩
      exact absurd hobj ho

theorem loadConfig_foldl_filterMap (compiles : String → Bool) :
    ∀ (entries : List (String × JValue)) (acc : TSet),
      entries.foldl (fun acc nt =>
          match validateTemplate compiles nt.2 with
          | .ok t => acc ++ [(nt.1, t)]
          | .error _ => acc) acc
        = acc ++ entries.filterMap (fun nt =>
            match validateTemplate compiles nt.2 with
            | .ok t => some (nt.1, t)
            | .error _ => none) := by
  intro entries
  induction entries with
  | nil => intro acc; simp
  | cons nt rest ih =>
    intro acc
    simp only [List.foldl_cons, List.filterMap_cons]
    cases hv : validateTemplate compiles nt.2 with
    | ok t =>
      rw [ih]
      simp
    | error e => rw [ih]

/-- C6 (amended): `validateTemplate` accepts an entry exactly when it is an
object with a string description, a string regex that compiles, and a
NON-NEGATIVE NUMBER (not necessarily an integer) tail-paragraph count; an
entry failing these checks is skipped by `loadConfig` while sibling
templates still load (the kept entries are exactly the validated ones). -/
theorem validateTemplate_acceptance (compiles : String → Bool) (j : JValue)
    (fields : List (String × JValue)) :
    ((∃ t, validateTemplate compiles j = Except.ok t) ↔
      (isJsObject j = true ∧
       (∃ d, getField j "description" = some (JValue.jstr d)) ∧
       (∃ r, getField j "include_regex" = some (JValue.jstr r) ∧ compiles r = true) ∧
       (∃ q, getField j "tail_paragraphs" = some (JValue.jnum q) ∧ 0 ≤ q))) ∧
    loadConfig compiles (JValue.jobj [("templates", JValue.jobj fields)])
      = Except.ok (fields.filterMap (fun nt =>
          match validateTemplate compiles nt.2 with
          | .ok t => some (nt.1, t)
          | .error _ => none)) := by
  refine ⟨validateTemplate_ok_iff compiles j, ?_⟩
  have h := loadConfig_foldl_filterMap compiles fields []
  rw [List.nil_append] at h
  calc loadConfig compiles (JValue.jobj [("templates", JValue.jobj fields)])
      = Except.ok (fields.foldl (fun acc nt =>
          match validateTemplate compiles nt.2 with
          | .ok t => acc ++ [(nt.1, t)]
          | .error _ => acc) []) := rfl
    _ = _ := by rw [h]

/-- C6 counterexample: an entry whose `tail_paragraphs` is the non-integer
number 3/2 is accepted by `validateTemplate` (and kept by `loadConfig`),
refuting the claim that a non-integer numeric `tail_paragraphs` is rejected
and skipped. -/
theorem validateTemplate_accepts_noninteger_tail :
    validateTemplate (fun _ => true)
        (JValue.jobj [("description", JValue.jstr "d"),
                      ("include_regex", JValue.jstr "x"),
                      ("tail_paragraphs", JValue.jnum threeHalves)])
      = Except.ok { description := "d", include_regex := "x",
                    tail_paragraphs := threeHalves, suppress_output_on_success := none } ∧
    threeHalves = 3 / 2 ∧ threeHalves.den ≠ 1 ∧
    loadConfig (fun _ => true)
        (JValue.jobj [("templates", JValue.jobj [("custom",
          JValue.jobj [("description", JValue.jstr "d"),
                       ("include_regex", JValue.jstr "x"),
                       ("tail_paragraphs", JValue.jnum threeHalves)])])])
      = Except.ok [("custom",
          { description := "d", include_regex := "x",
            tail_paragraphs := threeHalves, suppress_output_on_success := none })] := by
  refine ⟨rfl, ?_, by decide, rfl⟩
  rw [← Rat.num_div_den threeHalves]
  norm_num [threeHalves]

/-- C1: the code drops a custom template's `suppress_output_on_success`
during config loading: `validateTemplate` returns an object without the
field (`none`), so the orchestrator's override branch never sees it and
falls back to the caller's flag.  With a template defining `false` and the
defaulted caller flag `true`, a successful command's output is replaced by
the sentinel, although the template override — as `effectiveSuppression`
(spec 4.5) and the claim require — would be `false` and the output should
pass through. -/
theorem validateTemplate_drops_suppress_override :
    validateTemplate (fun _ => true)
        (JValue.jobj [("description", JValue.jstr "d"),
                      ("include_regex", JValue.jstr "x"),
                      ("tail_paragraphs", JValue.jnum 0),
                      ("suppress_output_on_success", JValue.jbool false)])
      = Except.ok { description := "d", include_regex := "x",
                    tail_paragraphs := 0, suppress_output_on_success := none } ∧
    (executeResponse none
        (some ("custom",
          { description := "d", include_regex := "x", tail_paragraphs := 0,
            suppress_output_on_success := none },
          some (fun _ => false)))
        { exitCode := 0, output := txt "verbose output" }).output = successSentinel ∧
    effectiveSuppression
        (some { description := "d", include_regex := "x", tail_paragraphs := 0,
                suppress_output_on_success := some false }) true = false := by
  exact ⟨rfl, rfl, rfl⟩

/-- C5: the response's exit code always equals the executor's exit code,
and the output is the sentinel exactly when the spec's effective
suppression holds and the exit code is 0; otherwise the (possibly filtered)
output passes through unchanged. -/
theorem executeResponse_suppression_policy
    (sArg : Option Bool) (targ : Option (String × Template × Option (Line → Bool)))
    (res : ExecutionResult) :
    (executeResponse sArg targ res).exit_code = res.exitCode ∧
    (executeResponse sArg targ res).output
      = (if effectiveSuppression (targ.map (fun a => a.2.1)) (sArg.getD true) = true
            ∧ res.exitCode = 0
         then successSentinel
         else match targ with
              | none => res.output
              | some (_, t, compiled) => filterOutput compiled res.output t) := by
  constructor
  · cases targ <;> rfl
  · rcases targ with _ | ⟨name, t, compiled⟩
    · rcases sArg with _ | b
      · by_cases h0 : res.exitCode = 0 <;>
          simp [executeResponse, effectiveSuppression, h0, beq_iff_eq]
      · cases b <;> by_cases h0 : res.exitCode = 0 <;>
          simp [executeResponse, effectiveSuppression, h0, beq_iff_eq]
    · rcases htk : t.suppress_output_on_success with _ | sb
      · rcases sArg with _ | b
        · by_cases h0 : res.exitCode = 0 <;>
            simp [executeResponse, effectiveSuppression, htk, h0, beq_iff_eq]
        · cases b <;> by_cases h0 : res.exitCode = 0 <;>
            simp [executeResponse, effectiveSuppression, htk, h0, beq_iff_eq]
      · cases sb <;> by_cases h0 : res.exitCode = 0 <;>
          simp [executeResponse, effectiveSuppression, htk, h0, beq_iff_eq]

/-- C7: after any call, a second `getAvailableTemplates` call within the TTL
window returns the cached set with no discovery/load cycle and an unchanged
state; after the TTL has elapsed it performs exactly one more load and
replaces the cache entry with a new timestamp; `getTemplate` consults the
same cache layer and shares this behaviour. -/
theorem getAvailableTemplates_cache_ttl
    (cacheTTL : Int) (loadF : Unit → TSet) (t1 t2 : Int) (st0 : ManagerState) :
    getAvailableTemplates cacheTTL loadF t2
        (getAvailableTemplates cacheTTL loadF t1 st0).state
      = (if t2 - (getAvailableTemplates cacheTTL loadF t1 st0).state.cacheTime < cacheTTL
         then { templates := (getAvailableTemplates cacheTTL loadF t1 st0).templates,
                state := (getAvailableTemplates cacheTTL loadF t1 st0).state,
                didLoad := false }
         else { templates := loadF (),
                state := { cache := some (loadF ()), cacheTime := t2 },
                didLoad := true }) ∧
    ∀ name, getTemplate cacheTTL loadF t2
        (getAvailableTemplates cacheTTL loadF t1 st0).state name
      = (((getAvailableTemplates cacheTTL loadF t2
            (getAvailableTemplates cacheTTL loadF t1 st0).state).templates.find?
              (fun p => p.1 == name)).map (fun p => p.2),
         (getAvailableTemplates cacheTTL loadF t2
            (getAvailableTemplates cacheTTL loadF t1 st0).state).state,
         (getAvailableTemplates cacheTTL loadF t2
            (getAvailableTemplates cacheTTL loadF t1 st0).state).didLoad) := by
  constructor
  · rcases st0 with ⟨c, time⟩
    rcases c with _ | c
    · by_cases h2 : t2 - t1 < cacheTTL
      · simp [getAvailableTemplates, loadTemplatesWithCache, h2]
      · simp [getAvailableTemplates, loadTemplatesWithCache, h2]
    · by_cases h1 : t1 - time < cacheTTL
      · by_cases h2 : t2 - time < cacheTTL
        · simp [getAvailableTemplates, loadTemplatesWithCache, h1, h2]
        · simp [getAvailableTemplates, loadTemplatesWithCache, h1, h2]
      · by_cases h2 : t2 - t1 < cacheTTL
        · simp [getAvailableTemplates, loadTemplatesWithCache, h1, h2]
        · simp [getAvailableTemplates, loadTemplatesWithCache, h1, h2]
  · intro name
    rfl

/-- C8: whenever the config loader fails with an error (as it does for
every fatal structural error, e.g. a non-object document or a missing
`templates` key), `loadTemplates` catches it and `getAvailableTemplates`
returns exactly the built-in set — the failure is never propagated, as both
functions are total. -/
theorem manager_falls_back_to_builtins
    (cacheTTL : Int) (builtin : TSet) (p : String)
    (loadCfg : String → Except String TSet) (msg : String) (now : Int)
    (hfail : loadCfg p = Except.error msg) :
    (getAvailableTemplates cacheTTL
        (fun _ => loadTemplates builtin (some p) loadCfg) now
        initialManagerState).templates = builtin ∧
    loadTemplates builtin (some p) loadCfg = builtin := by
  have h2 : loadTemplates builtin (some p) loadCfg = builtin := by
    show (match loadCfg p with
      | Except.ok custom => custom.foldl (fun acc nt => setKey acc nt.1 nt.2) builtin
      | Except.error _ => builtin) = builtin
    rw [hfail]
  exact ⟨by simp [getAvailableTemplates, loadTemplatesWithCache, initialManagerState, h2], h2⟩

theorem manager_falls_back_to_builtins_witness :
    (getAvailableTemplates 60000
        (fun _ => loadTemplates [] (some "cfg")
          (fun _ => loadConfig (fun _ => true) JValue.jnull)) 0
        initialManagerState).templates = ([] : TSet) :=
  (manager_falls_back_to_builtins 60000 [] "cfg"
    (fun _ => loadConfig (fun _ => true) JValue.jnull)
    "Config file must contain an object" 0 rfl).1

/-- C9: a spawn-level failure — an `error` event arriving before any
terminal event, after only data chunks — makes `executeCommand` resolve
(never raise or reject: the function is total and yields `some`) with exit
code 1 and output `"Error executing command: <diagnostic>"`. -/
theorem executeCommand_spawn_error_synthetic
    (chunks : List Line) (message : Line) (rest : List ChildEvent) :
    executeCommand ((chunks.map ChildEvent.data) ++ ChildEvent.err message :: rest)
      = some { exitCode := 1, output := txt "Error executing command: " ++ message } := by
  unfold executeCommand
  suffices h : ∀ acc, runChild acc ((chunks.map ChildEvent.data) ++ ChildEvent.err message :: rest)
      = some { exitCode := 1, output := txt "Error executing command: " ++ message } from
    h []
  induction chunks with
  | nil =>
    intro acc
    simp [runChild]
  | cons c cs ih =>
    intro acc
    simp only [List.map_cons, List.cons_append, runChild]
    exact ih _

end QuietShell
